import Mathlib

/-
Verification development for the Risk-Management-Software analytics engine.

The source under scrutiny is a Python application.  The parts relevant to the
claims are shallowly embedded below:

* `EFloat` models an IEEE-754 double as an exact value: a finite rational, one
  of the two infinities, or NaN.  The claims under verification concern
  control flow and exact edge-case policy (fallbacks, sentinels, clamping,
  normalization), never rounding, so modelling finite doubles as rationals is
  faithful for them.
* `PyVal` pairs such a value with a flag telling whether the Python object is
  a `numpy` scalar (`np.float64`) or a plain Python `float`.  The distinction
  is observable in the source: dividing a plain `float` by `0.0` raises
  `ZeroDivisionError`, while dividing a `numpy` scalar by `0.0` silently
  yields `inf`/`nan`.
* `PyExpr` models the fragment of Python expression syntax relevant to the
  claims, i.e. what `eval` accepts in the engines' formula strings: float
  literals, identifiers, the four arithmetic operators, calls of the
  whitelisted functions, and (beyond the spec's restricted grammar, but
  accepted by `eval`) the comparison operator `>`.
* `evalPy` is Python `eval` on that fragment, with the name environment and
  function dictionary of each call site (`{"__builtins__": {}}` plus the
  site's `safe_dict`): unknown identifiers raise `NameError`, plain-float
  division by zero raises `ZeroDivisionError`, `numpy`'s `sqrt`/`log` return
  NaN or -inf on domain errors instead of raising.
* The Monte Carlo and Stress Test engines first textually substitute each
  metric name by the decimal literal of its value and then call `eval`; this
  is modelled by `substMetrics`, which performs that substitution on the
  expression tree.  (On formula strings whose identifiers are exactly the
  vocabulary tokens the two coincide; no claim depends on the pathological
  splicing cases of textual replacement.)
* `numpy`'s `sqrt`/`log`/`exp` take irrational values on most rational
  arguments, so the embedding is parametric in a `FinFuns` record providing
  the finite values of these functions on their valid domains.  The
  domain-error policy (the part the claims are about) is explicit and not
  parametric.
-/

set_option maxRecDepth 4000

/-- An IEEE-double value modelled exactly: finite rational, infinity or NaN. -/
inductive EFloat where
  | fin : ℚ → EFloat
  | pinf : EFloat
  | ninf : EFloat
  | nan : EFloat
deriving DecidableEq

/-- Negation of a double. -/
def EFloat.neg : EFloat → EFloat
  | fin q => fin (-q)
  | pinf => ninf
  | ninf => pinf
  | nan => nan

/-- Addition of doubles (`nan` absorbs; opposite infinities give `nan`). -/
def EFloat.add : EFloat → EFloat → EFloat
  | nan, _ => nan
  | _, nan => nan
  | fin a, fin b => fin (a + b)
  | pinf, ninf => nan
  | ninf, pinf => nan
  | pinf, _ => pinf
  | _, pinf => pinf
  | ninf, _ => ninf
  | _, ninf => ninf

/-- Subtraction of doubles. -/
def EFloat.sub (a b : EFloat) : EFloat := a.add b.neg

/-- Multiplication of doubles (`inf * 0 = nan`, sign rules otherwise). -/
def EFloat.mul : EFloat → EFloat → EFloat
  | nan, _ => nan
  | _, nan => nan
  | fin a, fin b => fin (a * b)
  | pinf, pinf => pinf
  | pinf, ninf => ninf
  | ninf, pinf => ninf
  | ninf, ninf => pinf
  | pinf, fin b => if 0 < b then pinf else if b < 0 then ninf else nan
  | fin a, pinf => if 0 < a then pinf else if a < 0 then ninf else nan
  | ninf, fin b => if 0 < b then ninf else if b < 0 then pinf else nan
  | fin a, ninf => if 0 < a then ninf else if a < 0 then pinf else nan

/-- The strict `>` comparison of doubles as computed by Python/IEEE:
any comparison involving `nan` is false. -/
def EFloat.gtB : EFloat → EFloat → Bool
  | nan, _ => false
  | _, nan => false
  | fin a, fin b => decide (b < a)
  | pinf, pinf => false
  | pinf, _ => true
  | _, pinf => false
  | ninf, _ => false
  | fin _, ninf => true

/-- The strict `<` comparison of doubles. -/
def EFloat.ltB (a b : EFloat) : Bool := EFloat.gtB b a

/-- `numpy` division of a double by `0.0` (warns, never raises). -/
def EFloat.npDivZero : EFloat → EFloat
  | fin a => if 0 < a then pinf else if a < 0 then ninf else nan
  | pinf => pinf
  | ninf => ninf
  | nan => nan

/-- Division of doubles, for a denominator other than zero. -/
def EFloat.divNZ : EFloat → EFloat → EFloat
  | nan, _ => nan
  | _, nan => nan
  | fin a, fin b => fin (a / b)
  | fin _, pinf => fin 0
  | fin _, ninf => fin 0
  | pinf, fin b => if b < 0 then ninf else pinf
  | ninf, fin b => if b < 0 then pinf else ninf
  | pinf, pinf => nan
  | pinf, ninf => nan
  | ninf, pinf => nan
  | ninf, ninf => nan

/-- Absolute value of a double. -/
def EFloat.absV : EFloat → EFloat
  | fin a => fin |a|
  | pinf => pinf
  | ninf => pinf
  | nan => nan

/-- A Python numeric value: the double it denotes plus whether the object is a
`numpy` scalar (`isNp = true`) or a plain Python `float`. -/
structure PyVal where
  isNp : Bool
  val : EFloat
deriving DecidableEq

/-- Finite (rational stand-in) values of `sqrt`, `log` and `exp` on their
valid domains.  The true values are irrational, so the embedding is
parametric in them; every theorem below holds for every interpretation. -/
structure FinFuns where
  sqrtQ : ℚ → ℚ
  logQ : ℚ → ℚ
  expQ : ℚ → ℚ

/-- A trivial interpretation of the irrational functions, used to instantiate
closed statements. -/
def idFins : FinFuns := ⟨fun q => q, fun q => q, fun q => q⟩

/-- `np.sqrt` on a double: NaN on negative arguments (domain error, warns but
does not raise). -/
def npSqrtVal (F : FinFuns) : EFloat → EFloat
  | .fin q => if q < 0 then .nan else .fin (F.sqrtQ q)
  | .pinf => .pinf
  | .ninf => .nan
  | .nan => .nan

/-- `np.log` on a double: NaN on negative arguments, `-inf` at zero. -/
def npLogVal (F : FinFuns) : EFloat → EFloat
  | .fin q => if q < 0 then .nan else if q = 0 then .ninf else .fin (F.logQ q)
  | .pinf => .pinf
  | .ninf => .nan
  | .nan => .nan

/-- `np.exp` on a double. -/
def npExpVal (F : FinFuns) : EFloat → EFloat
  | .fin q => .fin (F.expQ q)
  | .pinf => .pinf
  | .ninf => .fin 0
  | .nan => .nan

/-- Python builtin `max(a, b)`: returns `b` exactly when `b > a`. -/
def pyMax2 (a b : PyVal) : PyVal := if EFloat.gtB b.val a.val then b else a

/-- Python builtin `min(a, b)`: returns `b` exactly when `b < a`. -/
def pyMin2 (a b : PyVal) : PyVal := if EFloat.ltB b.val a.val then b else a

/-- `np.maximum(a, b)`: NaN-propagating, always a `numpy` scalar. -/
def npMax2 (a b : PyVal) : PyVal :=
  ⟨true, if a.val = .nan ∨ b.val = .nan then .nan
         else if EFloat.gtB b.val a.val then b.val else a.val⟩

/-- `np.minimum(a, b)`: NaN-propagating, always a `numpy` scalar. -/
def npMin2 (a b : PyVal) : PyVal :=
  ⟨true, if a.val = .nan ∨ b.val = .nan then .nan
         else if EFloat.ltB b.val a.val then b.val else a.val⟩

/-- The exceptions the evaluator can raise (all are caught by the callers). -/
inductive PyErr where
  | nameError : PyErr
  | zeroDivisionError : PyErr
  | typeError : PyErr
deriving DecidableEq

/-- The callable objects appearing in the engines' `safe_dict`s. -/
inductive FnImpl where
  | sqrtNp : FnImpl
  | logNp : FnImpl
  | expNp : FnImpl
  | absNp : FnImpl
  | absPy : FnImpl
  | maxNp : FnImpl
  | maxPy : FnImpl
  | minNp : FnImpl
  | minPy : FnImpl
deriving DecidableEq

/-- `safe_dict` of `MonteCarloEngine._calculate_allocations`: the whitelisted
functions, all bound to their `numpy` implementations. -/
def mcSafeDict : String → Option FnImpl
  | "sqrt" => some .sqrtNp
  | "abs" => some .absNp
  | "max" => some .maxNp
  | "min" => some .minNp
  | "log" => some .logNp
  | "exp" => some .expNp
  | _ => none

/-- `safe_dict` of `StressTestEngine._calculate_allocation`: `sqrt`, `log`,
`exp` from `numpy`; `abs`, `max`, `min` are the Python builtins. -/
def stSafeDict : String → Option FnImpl
  | "sqrt" => some .sqrtNp
  | "abs" => some .absPy
  | "max" => some .maxPy
  | "min" => some .minPy
  | "log" => some .logNp
  | "exp" => some .expNp
  | _ => none

/-- `safe_dict` of `OverfittingDetector._evaluate_formula`: only `sqrt`
(numpy), `max`, `min`, `abs` (builtins); `log` and `exp` are absent. -/
def detSafeDict : String → Option FnImpl
  | "sqrt" => some .sqrtNp
  | "max" => some .maxPy
  | "min" => some .minPy
  | "abs" => some .absPy
  | _ => none

/-- The fragment of Python expression syntax relevant to the claims.  `gt` is
outside the spec's restricted grammar but is accepted by `eval`. -/
inductive PyExpr where
  | num : ℚ → PyExpr
  | name : String → PyExpr
  | add : PyExpr → PyExpr → PyExpr
  | sub : PyExpr → PyExpr → PyExpr
  | mul : PyExpr → PyExpr → PyExpr
  | div : PyExpr → PyExpr → PyExpr
  | gt : PyExpr → PyExpr → PyExpr
  | call1 : String → PyExpr → PyExpr
  | call2 : String → PyExpr → PyExpr → PyExpr
deriving DecidableEq

/-- Application of a unary callable from a `safe_dict`; calling a binary one
with a single argument is a `TypeError`. -/
def applyFn1 (F : FinFuns) : FnImpl → PyVal → Except PyErr PyVal
  | .sqrtNp, a => .ok ⟨true, npSqrtVal F a.val⟩
  | .logNp, a => .ok ⟨true, npLogVal F a.val⟩
  | .expNp, a => .ok ⟨true, npExpVal F a.val⟩
  | .absNp, a => .ok ⟨true, a.val.absV⟩
  | .absPy, a => .ok ⟨a.isNp, a.val.absV⟩
  | _, _ => .error .typeError

/-- Application of a binary callable from a `safe_dict`; calling a unary one
with two arguments is a `TypeError`. -/
def applyFn2 : FnImpl → PyVal → PyVal → Except PyErr PyVal
  | .maxNp, a, b => .ok (npMax2 a b)
  | .maxPy, a, b => .ok (pyMax2 a b)
  | .minNp, a, b => .ok (npMin2 a b)
  | .minPy, a, b => .ok (pyMin2 a b)
  | _, _, _ => .error .typeError

/-- Python `eval` on the modelled fragment, with globals `{"__builtins__": {}}`
and the given `safe_dict` (`fns`) and variable bindings (`env`).  Unknown
identifiers raise `NameError`; dividing a plain float by zero raises
`ZeroDivisionError`, while `numpy` scalars divide by zero silently. -/
def evalPy (F : FinFuns) (fns : String → Option FnImpl)
    (env : String → Option PyVal) : PyExpr → Except PyErr PyVal
  | .num q => .ok ⟨false, .fin q⟩
  | .name s =>
    match env s with
    | some v => .ok v
    | none => .error .nameError
  | .add a b => do
    let x ← evalPy F fns env a
    let y ← evalPy F fns env b
    .ok ⟨x.isNp || y.isNp, x.val.add y.val⟩
  | .sub a b => do
    let x ← evalPy F fns env a
    let y ← evalPy F fns env b
    .ok ⟨x.isNp || y.isNp, x.val.sub y.val⟩
  | .mul a b => do
    let x ← evalPy F fns env a
    let y ← evalPy F fns env b
    .ok ⟨x.isNp || y.isNp, x.val.mul y.val⟩
  | .div a b => do
    let x ← evalPy F fns env a
    let y ← evalPy F fns env b
    match y.val with
    | .fin q =>
      if q = 0 then
        if x.isNp || y.isNp then .ok ⟨true, x.val.npDivZero⟩
        else .error .zeroDivisionError
      else .ok ⟨x.isNp || y.isNp, x.val.divNZ y.val⟩
    | _ => .ok ⟨x.isNp || y.isNp, x.val.divNZ y.val⟩
  | .gt a b => do
    let x ← evalPy F fns env a
    let y ← evalPy F fns env b
    .ok ⟨x.isNp || y.isNp, if EFloat.gtB x.val y.val then .fin 1 else .fin 0⟩
  | .call1 f a =>
    match fns f with
    | some impl => do
      let x ← evalPy F fns env a
      applyFn1 F impl x
    | none => .error .nameError
  | .call2 f a b =>
    match fns f with
    | some impl => do
      let x ← evalPy F fns env a
      let y ← evalPy F fns env b
      applyFn2 impl x y
    | none => .error .nameError

/-- The nine-entry metric vector of the closed vocabulary. -/
structure MetricVec where
  sharpe : ℚ
  omega : ℚ
  volatility : ℚ
  drawdown : ℚ
  win_rate : ℚ
  profit_factor : ℚ
  total_return : ℚ
  calmar : ℚ
  sortino : ℚ
deriving DecidableEq

/-- Lookup of a vocabulary token in a metric vector. -/
def metricLookup (m : MetricVec) : String → Option ℚ
  | "sharpe" => some m.sharpe
  | "omega" => some m.omega
  | "volatility" => some m.volatility
  | "drawdown" => some m.drawdown
  | "win_rate" => some m.win_rate
  | "profit_factor" => some m.profit_factor
  | "total_return" => some m.total_return
  | "calmar" => some m.calmar
  | "sortino" => some m.sortino
  | _ => none

/-- The Monte Carlo / Stress Test engines replace each metric name in the
formula string by the decimal literal of its (plain Python float) value
before calling `eval`. -/
def substMetrics (m : MetricVec) : PyExpr → PyExpr
  | .num q => .num q
  | .name s =>
    match metricLookup m s with
    | some q => .num q
    | none => .name s
  | .add a b => .add (substMetrics m a) (substMetrics m b)
  | .sub a b => .sub (substMetrics m a) (substMetrics m b)
  | .mul a b => .mul (substMetrics m a) (substMetrics m b)
  | .div a b => .div (substMetrics m a) (substMetrics m b)
  | .gt a b => .gt (substMetrics m a) (substMetrics m b)
  | .call1 f a => .call1 f (substMetrics m a)
  | .call2 f a b => .call2 f (substMetrics m a) (substMetrics m b)

/-- Python `max(0, min(100, x))` as applied by both engines to the evaluated
formula value, yielding the stored allocation percentage.  `min(100, x)` is
`100` unless `x < 100` (hence `100` on NaN and `+inf`), and `max(0, y)` is
`0` unless `y > 0`. -/
def pyClampAlloc (v : EFloat) : ℚ :=
  let m := if EFloat.ltB v (.fin 100) then v else .fin 100
  match (if EFloat.gtB m (.fin 0) then m else .fin 0) with
  | .fin q => q
  | _ => 0

/-- Python `min(50, max(0, x))` as applied by the Overfitting Detector
(`0` on NaN, since `max(0, nan)` is `0`). -/
def pyClampDet (v : EFloat) : ℚ :=
  let p := if EFloat.gtB v (.fin 0) then v else .fin 0
  match (if EFloat.ltB p (.fin 50) then p else .fin 50) with
  | .fin q => q
  | _ => 0

/-- `MonteCarloEngine._calculate_allocations`, one trial: substitute the
trial's metric values, `eval` with the numpy `safe_dict`, clamp to
`[0, 100]`; on any exception the fallback allocation is `5.0`. -/
def mcAllocation (F : FinFuns) (formula : PyExpr) (m : MetricVec) : ℚ :=
  match evalPy F mcSafeDict (fun _ => none) (substMetrics m formula) with
  | .ok v => pyClampAlloc v.val
  | .error _ => 5

/-- `MonteCarloEngine._calculate_allocations`, whole batch: the per-trial
computation (including its `try`/`except`) runs independently inside the
loop over trials. -/
def mcAllocations (F : FinFuns) (formula : PyExpr) (ms : List MetricVec) :
    List ℚ :=
  ms.map (mcAllocation F formula)

/-- `StressTestEngine._calculate_allocation`: same pipeline with the stress
engine's `safe_dict`; fallback `5.0`. -/
def stAllocation (F : FinFuns) (formula : PyExpr) (m : MetricVec) : ℚ :=
  match evalPy F stSafeDict (fun _ => none) (substMetrics m formula) with
  | .ok v => pyClampAlloc v.val
  | .error _ => 5

/-- `OverfittingDetector._evaluate_formula`: the metrics mapping is passed as
`eval` variables (no textual substitution), result clamped to `[0, 50]`;
fallback `10.0` on any exception. -/
def detEvaluateFormula (F : FinFuns) (formula : PyExpr)
    (env : String → Option PyVal) : ℚ :=
  match evalPy F detSafeDict env formula with
  | .ok v => pyClampDet v.val
  | .error _ => 10

/-- `StrategyModel._calculate_omega_ratio`: gains above the threshold summed
against shortfalls at or below it; `np.inf` when there are no shortfalls or
their sum is zero.  The source has no raising path: empty filters sum to
zero and are caught by the sentinel branch. -/
def omegaRatio (returns : List ℚ) (threshold : ℚ) : EFloat :=
  let gains := (returns.filter (fun r => decide (threshold < r))).map
    (fun r => r - threshold)
  let losses := (returns.filter (fun r => decide (r ≤ threshold))).map
    (fun r => threshold - r)
  if losses.length = 0 ∨ losses.sum = 0 then .pinf
  else .fin (gains.sum / losses.sum)

/-- The Omega ratio as the spec words it: sum of gains above the threshold
over sum of shortfalls below it, with the positive-infinite sentinel when
the shortfall mass is zero.  Stated with pointwise `max` so that it is a
genuinely independent formulation of `omegaRatio`. -/
def omegaSpecRatio (returns : List ℚ) (threshold : ℚ) : EFloat :=
  let gainSum := (returns.map (fun r => max (r - threshold) 0)).sum
  let shortfallSum := (returns.map (fun r => max (threshold - r) 0)).sum
  if shortfallSum = 0 then .pinf else .fin (gainSum / shortfallSum)

/-- The slice of `StrategyModel` state the portfolio claims read: the return
series (`None` until `set_returns` is called) and the `kelly_criterion`
entry of the cached metrics mapping (absent while the mapping is empty). -/
structure StrategyModel where
  returns : Option (List ℚ)
  kelly_criterion : Option ℚ
deriving DecidableEq

/-- Python dict assignment `d[k] = v` on an insertion-ordered association
list: an existing key keeps its position, a new key is appended. -/
def alistInsert {α : Type} (l : List (String × α)) (k : String) (v : α) :
    List (String × α) :=
  if (l.lookup k).isSome then
    l.map (fun p => if p.1 = k then (k, v) else p)
  else l ++ [(k, v)]

/-- Python `del d[k]` on an association list. -/
def alistErase {α : Type} (l : List (String × α)) (k : String) :
    List (String × α) :=
  l.filter (fun p => p.1 != k)

/-- The slice of `PortfolioModel` state the claims read: the strategy mapping
and the allocation mapping, both insertion-ordered like Python dicts. -/
structure PortfolioModel where
  strategies : List (String × StrategyModel)
  allocations : List (String × ℚ)
deriving DecidableEq

/-- Sum of the values of an allocation mapping. -/
def sumAllocations (l : List (String × ℚ)) : ℚ :=
  (l.map (fun p => p.2)).sum

/-- `PortfolioModel._normalize_allocations`: divide every weight by the total
when the total is positive, otherwise leave the mapping unchanged. -/
def normalizeAllocations (l : List (String × ℚ)) : List (String × ℚ) :=
  if 0 < sumAllocations l then
    l.map (fun p => (p.1, p.2 / sumAllocations l))
  else l

/-- `PortfolioModel.add_strategy`: store the strategy, store the given
allocation, then call `_normalize_allocations`. -/
def PortfolioModel.addStrategy (p : PortfolioModel) (name : String)
    (strategy : StrategyModel) (allocation : ℚ) : PortfolioModel :=
  { strategies := alistInsert p.strategies name strategy,
    allocations := normalizeAllocations (alistInsert p.allocations name allocation) }

/-- `PortfolioModel.set_allocation`: replace the allocation mapping with the
given one; the source explicitly performs no normalization here. -/
def PortfolioModel.setAllocation (p : PortfolioModel)
    (allocations : List (String × ℚ)) : PortfolioModel :=
  { strategies := p.strategies, allocations := allocations }

/-- `PortfolioModel.remove_strategy`: delete the strategy and its allocation;
the source explicitly performs no normalization here. -/
def PortfolioModel.removeStrategy (p : PortfolioModel) (name : String) :
    PortfolioModel :=
  if (p.strategies.lookup name).isSome then
    { strategies := alistErase p.strategies name,
      allocations := alistErase p.allocations name }
  else p

/-- The per-strategy raw weight of `PortfolioModel._kelly_allocation`:
`max(0, min(kelly * 0.25, 0.25))` when the `kelly_criterion` metric is
present, the constant `0.02` otherwise. -/
def kellyRaw : Option ℚ → ℚ
  | some kelly => max 0 (min (kelly * 0.25) 0.25)
  | none => 0.02

/-- `PortfolioModel._kelly_allocation`: raw per-strategy weights, divided by
their total when the total is positive. -/
def kellyAllocationOf (strategies : List (String × StrategyModel)) :
    List (String × ℚ) :=
  let allocations := strategies.map (fun p => (p.1, kellyRaw p.2.kelly_criterion))
  let total := sumAllocations allocations
  if 0 < total then allocations.map (fun p => (p.1, p.2 / total))
  else allocations

/-- The kelly weighting as claim C4 words it: the Kelly criterion itself
capped to the interval `[0, 0.25]` (not a quarter of it). -/
def kellyRawClaimed : Option ℚ → ℚ
  | some kelly => max 0 (min kelly 0.25)
  | none => 0.02

/-- The kelly method as claim C4 words it, for comparison with
`kellyAllocationOf`. -/
def kellyAllocationClaimed (strategies : List (String × StrategyModel)) :
    List (String × ℚ) :=
  let allocations := strategies.map
    (fun p => (p.1, kellyRawClaimed p.2.kelly_criterion))
  let total := sumAllocations allocations
  if 0 < total then allocations.map (fun p => (p.1, p.2 / total))
  else allocations

/-- Mean of a return series (`np.mean`). -/
def listMean (l : List ℚ) : ℚ := l.sum / l.length

/-- Population variance of a return series (`np.std` squares to this;
`np.std` uses `ddof = 0`). -/
def popVariance (l : List ℚ) : ℚ :=
  ((l.map (fun r => (r - listMean l) ^ 2)).sum) / l.length

/-- `np.std`, parametric in the square-root stand-in `sqrtF` (the true square
root is irrational on most rationals). -/
def npStd (sqrtF : ℚ → ℚ) (l : List ℚ) : ℚ := sqrtF (popVariance l)

/-- `PortfolioModel._risk_parity_allocation`: strategies whose return series
is present, non-empty and of positive volatility get weight `1/vol`, the
others are skipped; the collected weights are divided by their total when
the total is positive. -/
def riskParityAllocation (sqrtF : ℚ → ℚ)
    (strategies : List (String × StrategyModel)) : List (String × ℚ) :=
  let inv := strategies.filterMap (fun p =>
    match p.2.returns with
    | some rs =>
      if 0 < rs.length then
        if 0 < npStd sqrtF rs then some (p.1, 1 / npStd sqrtF rs) else none
      else none
    | none => none)
  let total := sumAllocations inv
  if 0 < total then inv.map (fun p => (p.1, p.2 / total)) else inv

/-- The valid rows collected by `PortfolioModel._get_returns_matrix`: return
series that are present and non-empty, in strategy-mapping order. -/
def validReturns (strategies : List (String × StrategyModel)) :
    List (List ℚ) :=
  strategies.filterMap (fun p =>
    match p.2.returns with
    | some rs => if 0 < rs.length then some rs else none
    | none => none)

/-- Python `returns[-n:]`: the suffix of the most recent `n` observations. -/
def takeLast (n : ℕ) (l : List ℚ) : List ℚ := l.drop (l.length - n)

/-- `PortfolioModel._get_returns_matrix`: collect the valid rows, find the
minimum length, right-align every row on that length; `None` when the
portfolio is empty, when no row is valid, or when the minimum length is
below one. -/
def getReturnsMatrix (strategies : List (String × StrategyModel)) :
    Option (List (List ℚ)) :=
  if strategies = [] then none
  else
    match validReturns strategies with
    | [] => none
    | v :: vs =>
      let minLen := (vs.map List.length).foldl min v.length
      if minLen < 1 then none
      else some ((v :: vs).map (takeLast minLen))

/-- One tail event of `MonteCarloEngine._simulate_returns`: the day index
drawn by `randint(0, horizon)`, the outcome of the negative-shock branch
test (`random() < 0.7 + allocation * 0.2`), and the magnitude drawn by the
branch's `uniform`. -/
structure TailEvent where
  day : ℕ
  negBranch : Bool
  magnitude : ℚ
deriving DecidableEq

/-- The random draws consumed by one Monte Carlo trial, quantified over by
the theorems (the engine is deliberately unseeded). -/
structure TrialDraws where
  ruinRand : ℚ
  ruinLossFactor : ℚ
  daily : List ℚ
  tailEvents : List TailEvent
deriving DecidableEq

/-- In-place update `daily_returns[day] op= delta` (`randint` keeps the index
in range; out-of-range indices leave the list unchanged). -/
def modifyAt (l : List ℚ) (i : ℕ) (f : ℚ → ℚ) : List ℚ :=
  match l.get? i with
  | some x => l.set i (f x)
  | none => l

/-- One tail-event injection of `_simulate_returns`. -/
def applyTailEvent (allocation : ℚ) (ds : List ℚ) (e : TailEvent) : List ℚ :=
  if e.negBranch then modifyAt ds e.day (fun r => r - allocation * e.magnitude)
  else modifyAt ds e.day (fun r => r + allocation * e.magnitude)

/-- `MonteCarloEngine._simulate_returns`, one trial: convert the allocation
percentage to a decimal, run the ruin check for allocations above 50%
(terminating the trial with `-allocation * uniform(0.7, 1.0)`), otherwise
inject the tail events into the daily path, compound, and clamp the
cumulative return at `-1.0`. -/
def simulateTrialReturn (allocationPct : ℚ) (horizon : ℕ) (d : TrialDraws) : ℚ :=
  let allocation := allocationPct / 100
  if 0.5 < allocation ∧ d.ruinRand < (allocation - 0.5) * 0.02 * horizon then
    -(allocation * d.ruinLossFactor)
  else
    let adjusted := d.tailEvents.foldl (applyTailEvent allocation) d.daily
    max (-1) ((adjusted.map (fun r => 1 + r)).prod - 1)

/-- `StressScenario`: the shock record of the stress engine (the
presentation-only `description` and `period` strings are omitted). -/
structure StressScenario where
  name : String
  sharpe_impact : ℚ
  omega_impact : ℚ
  volatility_multiplier : ℚ
  drawdown_multiplier : ℚ
  win_rate_impact : ℚ
  duration_months : ℕ
deriving DecidableEq

/-- `StressTestEngine._create_historical_scenarios`: the fixed, read-only
seven-entry scenario table. -/
def stressScenarios : List StressScenario :=
  [⟨"Black Monday 1987", -2.5, -0.6, 3.2, 4.5, -0.35, 6⟩,
   ⟨"Dot-com Crash 2000", -1.8, -0.45, 2.1, 2.8, -0.25, 24⟩,
   ⟨"Lehman Crisis 2008", -3.2, -0.8, 4.1, 5.2, -0.42, 18⟩,
   ⟨"Flash Crash 2010", -3.8, -0.7, 6.2, 4.5, -0.48, 1⟩,
   ⟨"COVID-19 2020", -2.1, -0.52, 5.3, 3.8, -0.38, 3⟩,
   ⟨"Taux Fed 2022", -1.2, -0.28, 1.9, 2.1, -0.18, 12⟩,
   ⟨"Extrême Synthétique", -5.0, -1.2, 10.0, 8.0, -0.70, 36⟩]

/-- `StressTestEngine._calculate_scenario_severity`: the mean of the five
normalized shock magnitudes, capped at 1. -/
def scenarioSeverity (s : StressScenario) : ℚ :=
  let factors : List ℚ :=
    [|s.sharpe_impact| / 5.0,
     |s.omega_impact| / 1.2,
     (s.volatility_multiplier - 1) / 9.0,
     (s.drawdown_multiplier - 1) / 7.0,
     |s.win_rate_impact| / 0.7]
  min 1 (factors.sum / factors.length)

/-- `OverfittingDetector._detect_extreme_allocations`: fraction of
allocations above 50 or below 0, scored as `max(0, 100 - fraction * 150)`;
`50` for an empty mapping. -/
def detectExtremeAllocations (allocations : List ℚ) : ℚ :=
  if allocations = [] then 50
  else
    let extreme :=
      (allocations.filter (fun a => decide (50 < a) || decide (a < 0))).length
    max 0 (100 - ((extreme : ℚ) / allocations.length) * 150)

/-- `OverfittingDetector._calculate_overfitting_score`: fixed weights
25/25/20/20/10, inverted to an overfitting score and clamped to `[0,100]`. -/
def calculateOverfittingScore (stability cv robustness correlation extreme : ℚ) : ℚ :=
  let final := stability * 0.25 + cv * 0.25 + robustness * 0.20 +
    correlation * 0.20 + extreme * 0.10
  max 0 (min 100 (100 - final))

/-- `OverfittingDetector._determine_risk_level`. -/
def determineRiskLevel (s : ℚ) : String :=
  if s < 30 then "FAIBLE" else if s < 60 then "MODERE" else "ELEVE"

/-- The warning appended by `analyze_formula_overfitting` when fewer than two
strategies are supplied. -/
def insufficientStrategiesMsg : String :=
  "Pas assez de stratégies pour une analyse robuste"

/-- The outputs of the four statistical sub-analyses of the detector (time
stability, cross-validation, robustness, correlation).  They consume
`np.random` draws and irrational statistics, so the embedding treats them
as inputs of the aggregation step; `analyzeFormulaOverfitting` below only
aggregates them, which is all claim C9 needs. -/
structure OverfitSubScores where
  stability : ℚ
  cv : ℚ
  robustness : ℚ
  correlationScore : ℚ
  correlationAbs : ℚ
deriving DecidableEq

/-- `OverfittingDetector._generate_warnings`. -/
def generateWarnings (score : ℚ) (sub : OverfitSubScores) : List String :=
  (if 70 < score then ["RISQUE ÉLEVÉ D OVERFITTING détecté!"] else []) ++
  (if sub.stability < 30 then ["Formule INSTABLE dans le temps"] else []) ++
  (if sub.cv < 30 then ["Mauvaise GÉNÉRALISATION sur nouvelles données"] else []) ++
  (if sub.robustness < 30 then ["Formule FRAGILE aux perturbations"] else []) ++
  (if 0.8 < sub.correlationAbs then
    ["Corrélation EXCESSIVE avec performances passées"] else [])

/-- The slice of the detector's result dict the claims read: the overfitting
score, the risk level, the warnings, and whether the statistical analysis
ran at all (`detailed_analysis` filled in). -/
structure OverfitResults where
  overfitting_score : ℚ
  risk_level : String
  warnings : List String
  analyzed : Bool
deriving DecidableEq

/-- `OverfittingDetector.analyze_formula_overfitting`: with fewer than two
strategies, append the insufficient-data warning to the freshly initialized
result (score `0.0`, risk level `FAIBLE`) and return without analyzing;
otherwise aggregate the sub-scores and the extreme-allocation score into
the final overfitting score. -/
def analyzeFormulaOverfitting (strategyData : List (String × Option (List ℚ)))
    (currentAllocations : List (String × ℚ)) (sub : OverfitSubScores) :
    OverfitResults :=
  if strategyData.length < 2 then
    { overfitting_score := 0, risk_level := "FAIBLE",
      warnings := [insufficientStrategiesMsg], analyzed := false }
  else
    let extreme := detectExtremeAllocations
      (currentAllocations.map (fun p => p.2))
    let score := calculateOverfittingScore sub.stability sub.cv
      sub.robustness sub.correlationScore extreme
    { overfitting_score := score, risk_level := determineRiskLevel score,
      warnings := generateWarnings score sub, analyzed := true }

/-- The formula string `(sharpe > 0) * 50`: its token `>` is outside the
spec's closed vocabulary, four arithmetic operators and six whitelisted
functions, yet it is a valid Python expression. -/
def c1Formula : PyExpr := .mul (.gt (.name "sharpe") (.num 0)) (.num 50)

/-- A representative metric vector (the stress engine's baseline shape) with
Sharpe 1. -/
def exMetrics : MetricVec := ⟨1, 1.1, 0.15, 0.08, 0.58, 1.4, 0.12, 0.8, 0.7⟩

/-- The formula string `sqrt(0 - 1)`: a `sqrt` domain error. -/
def sqrtNegFormula : PyExpr := .call1 "sqrt" (.sub (.num 0) (.num 1))

/-- The formula string `sharpe / drawdown` from the spec's testable
properties. -/
def sharpeOverDrawdown : PyExpr := .div (.name "sharpe") (.name "drawdown")

/-- The representative metric vector with `drawdown` equal to `0`. -/
def exMetricsZeroDD : MetricVec := ⟨1, 1.1, 0.15, 0, 0.58, 1.4, 0.12, 0.8, 0.7⟩

/-- Claim C1: the claim states that a formula containing any token outside
the closed vocabulary and the six whitelisted functions is rejected and
never evaluated to a value.  The code contradicts this: both engines hand
the formula to Python `eval` (with only `__builtins__` removed), which
accepts arbitrary Python expression syntax.  The formula `(sharpe > 0) * 50`
contains the out-of-vocabulary token `>` and is evaluated to the allocation
`50.0` by both engines instead of being rejected. -/
theorem c1_out_of_vocabulary_evaluated :
    mcAllocation idFins c1Formula exMetrics = 50 ∧
    stAllocation idFins c1Formula exMetrics = 50 := by
  constructor <;>
  · simp only [mcAllocation, stAllocation, c1Formula, exMetrics, substMetrics,
      metricLookup, evalPy, Except.bind, Bind.bind, EFloat.gtB, EFloat.ltB,
      EFloat.mul, pyClampAlloc, idFins]
    norm_num

/-- Claim C2, counterexample: a domain error in `sqrt` does not return the
documented fallback `5.0`.  `np.sqrt(-1)` yields NaN without raising, and
the clamp `max(0, min(100, nan))` evaluates to `100`, so the Monte Carlo
allocation of `sqrt(0 - 1)` is `100.0`, not `5.0`. -/
theorem c2_domain_error_counterexample :
    mcAllocation idFins sqrtNegFormula exMetrics = 100 ∧
    mcAllocation idFins sqrtNegFormula exMetrics ≠ 5 := by
  constructor <;>
  · simp only [mcAllocation, sqrtNegFormula, exMetrics, substMetrics,
      metricLookup, evalPy, Except.bind, Bind.bind, mcSafeDict, applyFn1,
      npSqrtVal, EFloat.sub, EFloat.add, EFloat.neg, EFloat.gtB, EFloat.ltB,
      pyClampAlloc, idFins]
    norm_num

/-- Claim C2 as amended: evaluation failures that raise (parse errors,
unknown identifiers, plain-float division by zero — in particular
`sharpe / drawdown` with drawdown 0) return the caller's documented
fallback constant (`5.0` Monte Carlo, `5.0` Stress Test, `10.0`
Overfitting Detector) instead of raising, and one failing trial never
aborts the remaining trials of a batch; domain errors in `log`/`sqrt`,
however, do not raise and yield the clamped NaN/inf value instead of the
fallback. -/
theorem c2_fallback_amended :
    (∀ (F : FinFuns) (e : PyExpr) (m : MetricVec) (err : PyErr),
      evalPy F mcSafeDict (fun _ => none) (substMetrics m e) = .error err →
      mcAllocation F e m = 5) ∧
    (∀ (F : FinFuns) (e : PyExpr) (m : MetricVec) (err : PyErr),
      evalPy F stSafeDict (fun _ => none) (substMetrics m e) = .error err →
      stAllocation F e m = 5) ∧
    (∀ (F : FinFuns) (e : PyExpr) (env : String → Option PyVal) (err : PyErr),
      evalPy F detSafeDict env e = .error err →
      detEvaluateFormula F e env = 10) ∧
    (∀ (F : FinFuns) (m : MetricVec), m.drawdown = 0 →
      mcAllocation F sharpeOverDrawdown m = 5 ∧
      stAllocation F sharpeOverDrawdown m = 5) ∧
    (∀ (F : FinFuns) (e : PyExpr) (ms₁ ms₂ : List MetricVec) (m : MetricVec),
      mcAllocations F e (ms₁ ++ m :: ms₂) =
        mcAllocations F e ms₁ ++ mcAllocation F e m :: mcAllocations F e ms₂) := by
  refine ⟨?_, ?_, ?_, ?_, ?_⟩
  · intro F e m err h
    simp [mcAllocation, h]
  · intro F e m err h
    simp [stAllocation, h]
  · intro F e env err h
    simp [detEvaluateFormula, h]
  · intro F m h
    constructor
    · simp only [mcAllocation, sharpeOverDrawdown, substMetrics, metricLookup]
      rw [h]
      rfl
    · simp only [stAllocation, sharpeOverDrawdown, substMetrics, metricLookup]
      rw [h]
      rfl
  · intro F e ms₁ ms₂ m
    simp [mcAllocations]

/-- Witness for the amended claim C2: `sharpe / drawdown` with the concrete
metric vector whose drawdown is `0` returns the fallback `5.0` in both
engines. -/
theorem c2_fallback_witness :
    mcAllocation idFins sharpeOverDrawdown exMetricsZeroDD = 5 ∧
    stAllocation idFins sharpeOverDrawdown exMetricsZeroDD = 5 :=
  c2_fallback_amended.2.2.2.1 idFins exMetricsZeroDD rfl

/-- Sum of the gains above the threshold, rewritten as a pointwise `max`. -/
theorem sum_filter_gains (rs : List ℚ) (t : ℚ) :
    ((rs.filter (fun r => decide (t < r))).map (fun r => r - t)).sum =
    (rs.map (fun r => max (r - t) 0)).sum := by
  induction rs with
  | nil => simp
  | cons a l ih =>
    simp only [List.filter_cons, decide_eq_true_eq]
    by_cases h : t < a
    · rw [if_pos h]
      simp only [List.map_cons, List.sum_cons, ih]
      rw [max_eq_left (by linarith : (0:ℚ) ≤ a - t)]
    · rw [if_neg h]
      simp only [List.map_cons, List.sum_cons, ih]
      rw [max_eq_right (by linarith : a - t ≤ (0:ℚ))]
      ring

/-- Sum of the shortfalls at or below the threshold, rewritten as a pointwise
`max`. -/
theorem sum_filter_shortfalls (rs : List ℚ) (t : ℚ) :
    ((rs.filter (fun r => decide (r ≤ t))).map (fun r => t - r)).sum =
    (rs.map (fun r => max (t - r) 0)).sum := by
  induction rs with
  | nil => simp
  | cons a l ih =>
    simp only [List.filter_cons, decide_eq_true_eq]
    by_cases h : a ≤ t
    · rw [if_pos h]
      simp only [List.map_cons, List.sum_cons, ih]
      rw [max_eq_left (by linarith : (0:ℚ) ≤ t - a)]
    · rw [if_neg h]
      simp only [List.map_cons, List.sum_cons, ih]
      rw [max_eq_right (by linarith : t - a ≤ (0:ℚ))]
      ring

/-- Claim C3: for every non-empty return series, the Omega ratio at
threshold 0 equals the sum of gains above the threshold divided by the sum
of shortfalls below it (as worded by the spec, `omegaSpecRatio`), with
the positive-infinite sentinel when there are no shortfalls or their sum
is zero; in particular an all-positive series yields the sentinel, and the
computation is total (no raising path exists in the embedding). -/
theorem c3_omega_ratio (rs : List ℚ) (_hne : rs ≠ []) :
    omegaRatio rs 0 = omegaSpecRatio rs 0 ∧
    ((∀ r ∈ rs, 0 < r) → omegaRatio rs 0 = EFloat.pinf) := by
  constructor
  · simp only [omegaRatio, omegaSpecRatio]
    have hg := sum_filter_gains rs 0
    have hl := sum_filter_shortfalls rs 0
    by_cases hc : ((rs.filter (fun r => decide (r ≤ (0:ℚ)))).map
        (fun r => (0:ℚ) - r)).length = 0 ∨
        ((rs.filter (fun r => decide (r ≤ (0:ℚ)))).map (fun r => (0:ℚ) - r)).sum = 0
    · have hs : (rs.map (fun r => max ((0:ℚ) - r) 0)).sum = 0 := by
        rcases hc with h | h
        · rw [← hl]
          rw [List.length_eq_zero] at h
          rw [h]
          simp
        · rw [← hl]
          exact h
      rw [if_pos hc, if_pos hs]
    · have hs : ¬(rs.map (fun r => max ((0:ℚ) - r) 0)).sum = 0 := by
        intro h0
        exact hc (Or.inr (by rw [hl]; exact h0))
      rw [if_neg hc, if_neg hs, hg, hl]
  · intro hpos
    simp only [omegaRatio]
    have hnil : rs.filter (fun r => decide (r ≤ (0:ℚ))) = [] := by
      rw [List.filter_eq_nil_iff]
      intro a ha
      simp only [decide_eq_true_eq]
      exact (hpos a ha).not_le
    rw [hnil]
    simp

/-- Witness for claim C3 at the all-positive series `[0.01, 0.02]`. -/
theorem c3_omega_ratio_witness :
    omegaRatio [0.01, 0.02] 0 = EFloat.pinf ∧
    omegaRatio [0.01, 0.02] 0 = omegaSpecRatio [0.01, 0.02] 0 := by
  have h := c3_omega_ratio [0.01, 0.02] (by simp)
  refine ⟨h.2 ?_, h.1⟩
  intro r hr
  simp only [List.mem_cons, List.not_mem_nil, or_false] at hr
  rcases hr with rfl | rfl <;> norm_num

/-- Sum of a list after dividing every element by a constant. -/
theorem list_sum_div (l : List ℚ) (c : ℚ) :
    (l.map (fun x => x / c)).sum = l.sum / c := by
  induction l with
  | nil => simp
  | cons a l ih => simp [ih, add_div]

/-- Dividing every weight of an allocation mapping by a constant divides the
total by that constant. -/
theorem sumAllocations_div (l : List (String × ℚ)) (c : ℚ) :
    sumAllocations (l.map (fun p => (p.1, p.2 / c))) = sumAllocations l / c := by
  unfold sumAllocations
  rw [List.map_map]
  have hcomp : ((fun p : String × ℚ => p.2) ∘ fun p : String × ℚ => (p.1, p.2 / c)) =
      (fun x => x / c) ∘ (fun p : String × ℚ => p.2) := rfl
  rw [hcomp, ← List.map_map]
  exact list_sum_div _ c

/-- Normalization yields total weight 1 whenever the incoming total is
positive. -/
theorem sumAllocations_normalize (l : List (String × ℚ))
    (h : 0 < sumAllocations l) :
    sumAllocations (normalizeAllocations l) = 1 := by
  unfold normalizeAllocations
  rw [if_pos h, sumAllocations_div, div_self (ne_of_gt h)]

/-- The two strategies of the kelly counterexample: Kelly criteria `0.8` and
`0.1`. -/
def c4Strategies : List (String × StrategyModel) :=
  [("a", ⟨none, some 0.8⟩), ("b", ⟨none, some 0.1⟩)]

/-- Claim C4, counterexample: the code weights each strategy by a quarter of
its Kelly criterion capped at `0.25` (`max(0, min(kelly * 0.25, 0.25))`),
not by the Kelly criterion itself capped to `[0, 0.25]` as the claim
states.  With Kelly criteria `0.8` and `0.1` the code normalizes
`(0.2, 0.025)` to `(8/9, 1/9)` while the claim's rule normalizes
`(0.25, 0.1)` to `(5/7, 2/7)`. -/
theorem c4_kelly_counterexample :
    kellyAllocationOf c4Strategies ≠ kellyAllocationClaimed c4Strategies := by
  simp only [c4Strategies, kellyAllocationOf, kellyAllocationClaimed, kellyRaw,
    kellyRawClaimed, sumAllocations, List.map_cons, List.map_nil,
    List.sum_cons, List.sum_nil]
  norm_num

/-- Claim C4 as amended: the kelly optimization method assigns each strategy
`max(0, min(kelly * 0.25, 0.25))` — a quarter of its Kelly criterion from
the Metrics Engine, floored at 0 and capped at 0.25 — assigns the constant
`0.02` to every strategy lacking the metric, and renormalizes the weights
to sum to 1 whenever their total is positive. -/
theorem c4_kelly_amended (strategies : List (String × StrategyModel))
    (h : 0 < sumAllocations (strategies.map
      (fun p => (p.1, kellyRaw p.2.kelly_criterion)))) :
    kellyAllocationOf strategies =
      strategies.map (fun p => (p.1, kellyRaw p.2.kelly_criterion /
        sumAllocations (strategies.map
          (fun q => (q.1, kellyRaw q.2.kelly_criterion))))) ∧
    sumAllocations (kellyAllocationOf strategies) = 1 := by
  have h1 : kellyAllocationOf strategies =
      (strategies.map (fun p => (p.1, kellyRaw p.2.kelly_criterion))).map
        (fun p => (p.1, p.2 / sumAllocations (strategies.map
          (fun q => (q.1, kellyRaw q.2.kelly_criterion))))) := by
    simp only [kellyAllocationOf]
    rw [if_pos h]
  constructor
  · rw [h1, List.map_map]
    rfl
  · rw [h1, sumAllocations_div, div_self (ne_of_gt h)]

/-- Witness for the amended claim C4: on the concrete pair of strategies the
kelly weights sum to 1. -/
theorem c4_kelly_witness :
    sumAllocations (kellyAllocationOf c4Strategies) = 1 :=
  (c4_kelly_amended c4Strategies (by
    simp only [c4Strategies, kellyRaw, sumAllocations, List.map_cons,
      List.map_nil, List.sum_cons, List.sum_nil]
    norm_num)).2

/-- Deleting one key from an association list preserves lookups of every
other key. -/
theorem lookup_alistErase_ne {α : Type} (l : List (String × α)) (n k : String)
    (h : k ≠ n) : (alistErase l n).lookup k = l.lookup k := by
  induction l with
  | nil => rfl
  | cons a l ih =>
    obtain ⟨a1, a2⟩ := a
    by_cases ha : a1 = n
    · subst ha
      simp only [alistErase, List.filter_cons, bne_self_eq_false, Bool.false_eq_true,
        if_false] at ih ⊢
      rw [ih]
      simp [List.lookup, beq_eq_false_iff_ne.mpr h]
    · have hb : (a1 != n) = true := by simpa using ha
      simp only [alistErase, List.filter_cons] at ih ⊢
      rw [hb]
      simp only [if_true]
      cases hbk : (k == a1) with
      | true => simp [List.lookup, hbk]
      | false => simp [List.lookup, hbk, ih]

/-- The one-strategy portfolio of the manual-allocation counterexample, with
strategy `a` manually given weight `2`. -/
def c5Portfolio : PortfolioModel := ⟨[("a", ⟨none, none⟩)], [("a", 2)]⟩

/-- The strategy added by the counterexample. -/
def c5NewStrategy : StrategyModel := ⟨none, none⟩

/-- Claim C5, counterexample: `add_strategy` does rescale the existing
allocation weights — it calls `_normalize_allocations` after inserting.
Adding strategy `b` with weight `2` to a portfolio whose strategy `a` held
weight `2` rescales `a`'s weight to `0.5`. -/
theorem c5_manual_allocation_counterexample :
    ((c5Portfolio.addStrategy "b" c5NewStrategy 2).allocations.lookup "a") =
      some 0.5 ∧
    ((c5Portfolio.addStrategy "b" c5NewStrategy 2).allocations.lookup "a") ≠
      some 2 := by
  have hres : (c5Portfolio.addStrategy "b" c5NewStrategy 2).allocations =
      [("a", 2 / 4), ("b", 2 / 4)] := by
    simp [c5Portfolio, c5NewStrategy, PortfolioModel.addStrategy,
      alistInsert, normalizeAllocations, sumAllocations, List.lookup]
    norm_num
  rw [hres]
  constructor
  · simp [List.lookup]
    norm_num
  · simp [List.lookup]
    norm_num

/-- Claim C5 as amended: `set_allocation` stores the given weights exactly as
supplied with no rescaling, and `remove_strategy` leaves the weights of the
remaining strategies untouched; `add_strategy`, however, does rescale: it
normalizes the allocation mapping after inserting the new strategy, so its
resulting weights sum to 1 whenever their total is positive (as
`optimize_allocations` does). -/
theorem c5_allocation_amended :
    (∀ (p : PortfolioModel) (allocations : List (String × ℚ)),
      (p.setAllocation allocations).allocations = allocations) ∧
    (∀ (p : PortfolioModel) (n : String) (s : StrategyModel) (a : ℚ),
      0 < sumAllocations (alistInsert p.allocations n a) →
      sumAllocations ((p.addStrategy n s a).allocations) = 1) ∧
    (∀ (p : PortfolioModel) (n k : String), k ≠ n →
      ((p.removeStrategy n).allocations.lookup k) = p.allocations.lookup k) := by
  refine ⟨fun p allocations => rfl, fun p n s a h => ?_, fun p n k h => ?_⟩
  · simp only [PortfolioModel.addStrategy]
    exact sumAllocations_normalize _ h
  · simp only [PortfolioModel.removeStrategy]
    by_cases hs : (p.strategies.lookup n).isSome
    · rw [if_pos hs]
      exact lookup_alistErase_ne p.allocations n k h
    · rw [if_neg hs]

/-- Witness for the amended claim C5: after adding strategy `b`, the
portfolio's weights sum to 1. -/
theorem c5_allocation_witness :
    sumAllocations ((c5Portfolio.addStrategy "b" c5NewStrategy 2).allocations) = 1 :=
  c5_allocation_amended.2.1 c5Portfolio "b" c5NewStrategy 2 (by
    simp [c5Portfolio, alistInsert, List.lookup, sumAllocations])

/-- A left fold of `min` is bounded by its initial value. -/
theorem foldl_min_le_init (l : List ℕ) (a : ℕ) : l.foldl min a ≤ a := by
  induction l generalizing a with
  | nil => simp
  | cons x l ih =>
    simp only [List.foldl_cons]
    exact le_trans (ih (min a x)) (min_le_left a x)

/-- A left fold of `min` is bounded by every list element. -/
theorem foldl_min_le_mem (l : List ℕ) (x : ℕ) (hx : x ∈ l) :
    ∀ a, l.foldl min a ≤ x := by
  induction l with
  | nil => cases hx
  | cons y l ih =>
    intro a
    simp only [List.foldl_cons]
    rcases List.mem_cons.mp hx with rfl | h
    · exact le_trans (foldl_min_le_init l (min a x)) (min_le_right a x)
    · exact ih h (min a y)

/-- A left fold of `min` is attained: it is the initial value or an element. -/
theorem foldl_min_mem_or_init (l : List ℕ) (a : ℕ) :
    l.foldl min a = a ∨ l.foldl min a ∈ l := by
  induction l generalizing a with
  | nil => exact Or.inl rfl
  | cons y l ih =>
    simp only [List.foldl_cons]
    rcases ih (min a y) with h | h
    · rcases le_total a y with hay | hya
      · exact Or.inl (by rw [h, min_eq_left hay])
      · refine Or.inr ?_
        rw [h, min_eq_right hya]
        exact List.mem_cons_self y l
    · exact Or.inr (List.mem_cons_of_mem y h)

/-- Every row collected by the returns-matrix construction is non-empty. -/
theorem validReturns_pos_length (strategies : List (String × StrategyModel)) :
    ∀ rs ∈ validReturns strategies, 0 < rs.length := by
  intro rs h
  simp only [validReturns, List.mem_filterMap] at h
  obtain ⟨p, _hp, hmatch⟩ := h
  cases hr : p.2.returns with
  | none => rw [hr] at hmatch; simp at hmatch
  | some rs2 =>
    rw [hr] at hmatch
    simp only [] at hmatch
    by_cases hl : 0 < rs2.length
    · rw [if_pos hl] at hmatch
      injection hmatch with h2
      rw [← h2]
      exact hl
    · rw [if_neg hl] at hmatch
      cases hmatch

/-- Claim C6: the derived return matrix truncates every valid (present,
non-empty) return series to the length of the shortest such series,
keeping the most recent observations (each row is a suffix of its series),
so every row has the same length; with no valid series the construction
yields no result rather than an error. -/
theorem c6_returns_matrix (strategies : List (String × StrategyModel)) :
    (validReturns strategies = [] → getReturnsMatrix strategies = none) ∧
    (validReturns strategies ≠ [] →
      ∃ rows minLen, getReturnsMatrix strategies = some rows ∧
        0 < minLen ∧
        rows.length = (validReturns strategies).length ∧
        (∀ u ∈ validReturns strategies, minLen ≤ u.length) ∧
        (∃ u ∈ validReturns strategies, u.length = minLen) ∧
        ∀ i r u, rows.get? i = some r →
          (validReturns strategies).get? i = some u →
          r.length = minLen ∧ r <:+ u) := by
  constructor
  · intro h
    simp [getReturnsMatrix, h]
  · intro h
    obtain ⟨v, vs, hvv⟩ : ∃ v vs, validReturns strategies = v :: vs := by
      cases hval : validReturns strategies with
      | nil => exact absurd hval h
      | cons v vs => exact ⟨v, vs, rfl⟩
    have hs : strategies ≠ [] := by
      intro hs0
      apply h
      rw [hs0]
      rfl
    set minLen := (vs.map List.length).foldl min v.length with hmin
    have hposall := validReturns_pos_length strategies
    have hminpos : 0 < minLen := by
      rcases foldl_min_mem_or_init (vs.map List.length) v.length with h0 | h0
      · rw [hmin, h0]
        exact hposall v (hvv ▸ List.mem_cons_self v vs)
      · obtain ⟨u, hu, hlen⟩ := List.mem_map.mp h0
        rw [hmin, ← hlen]
        exact hposall u (hvv ▸ List.mem_cons_of_mem v hu)
    have hle : ∀ u ∈ validReturns strategies, minLen ≤ u.length := by
      intro u hu
      rw [hvv] at hu
      rcases List.mem_cons.mp hu with rfl | hu2
      · exact foldl_min_le_init _ _
      · exact foldl_min_le_mem _ _ (List.mem_map_of_mem List.length hu2) _
    have hmem : ∃ u ∈ validReturns strategies, u.length = minLen := by
      rcases foldl_min_mem_or_init (vs.map List.length) v.length with h0 | h0
      · exact ⟨v, hvv ▸ List.mem_cons_self v vs, h0.symm⟩
      · obtain ⟨u, hu, hlen⟩ := List.mem_map.mp h0
        exact ⟨u, hvv ▸ List.mem_cons_of_mem v hu, hlen⟩
    have hresult : getReturnsMatrix strategies =
        some ((v :: vs).map (takeLast minLen)) := by
      simp only [getReturnsMatrix]
      rw [if_neg hs, hvv]
      have hnlt : ¬((vs.map List.length).foldl min v.length < 1) := by omega
      simp only [hnlt, if_false]
    refine ⟨(v :: vs).map (takeLast minLen), minLen, hresult, hminpos, ?_, hle,
      hmem, ?_⟩
    · rw [hvv]
      simp
    · intro i r u hr hu
      rw [hvv] at hu
      rw [List.get?_map, hu, Option.map_some'] at hr
      have hul : minLen ≤ u.length := hle u (by rw [hvv]; exact List.get?_mem hu)
      injection hr with hr
      rw [← hr]
      constructor
      · simp only [takeLast, List.length_drop]
        omega
      · exact List.drop_suffix _ _

/-- A three-strategy portfolio: series of lengths 3 and 2, and one strategy
without data. -/
def c6Strategies : List (String × StrategyModel) :=
  [("a", ⟨some [0.01, 0.02, 0.03], none⟩),
   ("b", ⟨some [0.04, 0.05], none⟩),
   ("c", ⟨none, none⟩)]

/-- Witness for claim C6 at the concrete three-strategy portfolio. -/
theorem c6_returns_matrix_witness :
    ∃ rows minLen, getReturnsMatrix c6Strategies = some rows ∧
      0 < minLen ∧
      rows.length = (validReturns c6Strategies).length ∧
      (∀ u ∈ validReturns c6Strategies, minLen ≤ u.length) ∧
      (∃ u ∈ validReturns c6Strategies, u.length = minLen) ∧
      ∀ i r u, rows.get? i = some r →
        (validReturns c6Strategies).get? i = some u →
        r.length = minLen ∧ r <:+ u :=
  (c6_returns_matrix c6Strategies).2 (by simp [c6Strategies, validReturns])

/-- The Black Monday 1987 entry of the scenario table. -/
def c7BlackMonday : StressScenario :=
  ⟨"Black Monday 1987", -2.5, -0.6, 3.2, 4.5, -0.35, 6⟩

/-- The Lehman Crisis 2008 entry of the scenario table. -/
def c7Lehman : StressScenario :=
  ⟨"Lehman Crisis 2008", -3.2, -0.8, 4.1, 5.2, -0.42, 18⟩

/-- Claim C7: over the engine's fixed scenario table (the data model's
scenarios are exactly this read-only table), a scenario with strictly
larger volatility and drawdown multipliers than another never has a lower
computed severity score, the severity being the capped mean of the five
normalized shock magnitudes. -/
theorem c7_severity_monotone :
    ∀ s₁ ∈ stressScenarios, ∀ s₂ ∈ stressScenarios,
      s₁.volatility_multiplier < s₂.volatility_multiplier →
      s₁.drawdown_multiplier < s₂.drawdown_multiplier →
      scenarioSeverity s₁ ≤ scenarioSeverity s₂ := by
  simp only [stressScenarios, List.mem_cons, List.not_mem_nil, or_false]
  rintro s₁ (rfl | rfl | rfl | rfl | rfl | rfl | rfl) s₂
      (rfl | rfl | rfl | rfl | rfl | rfl | rfl) h1 h2 <;>
    first
      | (exfalso; norm_num at h1; done)
      | (exfalso; norm_num at h2; done)
      | (simp [scenarioSeverity]; norm_num [abs])

/-- Witness for claim C7: the Lehman scenario dominates Black Monday in both
multipliers and indeed has no lower severity. -/
theorem c7_severity_monotone_witness :
    scenarioSeverity c7BlackMonday ≤ scenarioSeverity c7Lehman :=
  c7_severity_monotone c7BlackMonday (by simp [stressScenarios, c7BlackMonday])
    c7Lehman (by simp [stressScenarios, c7Lehman])
    (by norm_num [c7BlackMonday, c7Lehman])
    (by norm_num [c7BlackMonday, c7Lehman])

/-- The engines' clamp `max(0, min(100, x))` always lands in `[0, 100]`,
whatever double (including NaN and the infinities) the formula produced. -/
theorem pyClampAlloc_range (v : EFloat) :
    0 ≤ pyClampAlloc v ∧ pyClampAlloc v ≤ 100 := by
  cases v with
  | fin q =>
    simp only [pyClampAlloc, EFloat.ltB, EFloat.gtB]
    by_cases h1 : q < 100
    · by_cases h2 : 0 < q
      · simp [decide_eq_true h1, decide_eq_true h2]
        all_goals (constructor <;> linarith)
      · simp [decide_eq_true h1, decide_eq_false h2]
    · simp [decide_eq_false h1]
  | pinf => simp [pyClampAlloc, EFloat.ltB, EFloat.gtB]
  | ninf => simp [pyClampAlloc, EFloat.ltB, EFloat.gtB]
  | nan => simp [pyClampAlloc, EFloat.ltB, EFloat.gtB]

/-- Every per-trial Monte Carlo allocation lies in `[0, 100]`: the clamped
evaluation does, and so does the fallback `5.0`. -/
theorem mcAllocation_range (F : FinFuns) (e : PyExpr) (m : MetricVec) :
    0 ≤ mcAllocation F e m ∧ mcAllocation F e m ≤ 100 := by
  unfold mcAllocation
  cases evalPy F mcSafeDict (fun _ => none) (substMetrics m e) with
  | ok v => exact pyClampAlloc_range v.val
  | error err => norm_num

/-- Claim C8: for every Monte Carlo trial, every allocation the engine
computes, and every outcome of the random draws (the uniform ruin-loss
draw lies in `[0.7, 1.0) ⊆ [0, 1]`), the terminal cumulative return of the
trial is at least `-1`: the ruin branch loses at most the allocated
fraction, and the normal branch is clamped by `max(-1.0, ...)`. -/
theorem c8_cumulative_return_clamped (F : FinFuns) (e : PyExpr) (m : MetricVec)
    (horizon : ℕ) (d : TrialDraws) (h0 : 0 ≤ d.ruinLossFactor)
    (h1 : d.ruinLossFactor ≤ 1) :
    -1 ≤ simulateTrialReturn (mcAllocation F e m) horizon d := by
  obtain ⟨hge, hle⟩ := mcAllocation_range F e m
  simp only [simulateTrialReturn]
  set a := mcAllocation F e m / 100 with ha
  have ha0 : 0 ≤ a := div_nonneg hge (by norm_num)
  have ha1 : a ≤ 1 := by
    rw [ha, div_le_one (by norm_num : (0:ℚ) < 100)]
    linarith
  split_ifs with hr
  · have hmul : a * d.ruinLossFactor ≤ 1 := mul_le_one₀ ha1 h0 h1
    linarith
  · exact le_max_left _ _

/-- A concrete outcome of one trial's random draws. -/
def c8Draws : TrialDraws := ⟨0, 0.8, [0.01, -0.02], [⟨0, true, 0.1⟩]⟩

/-- Witness for claim C8 at the constant formula `80`, horizon 2, and the
concrete draws. -/
theorem c8_cumulative_return_clamped_witness :
    -1 ≤ simulateTrialReturn (mcAllocation idFins (PyExpr.num 80) exMetrics)
      2 c8Draws :=
  c8_cumulative_return_clamped idFins (PyExpr.num 80) exMetrics 2 c8Draws
    (by norm_num [c8Draws]) (by norm_num [c8Draws])

/-- Claim C9: with fewer than 2 strategies, `analyze_formula_overfitting`
returns the freshly initialized result with the documented
insufficient-data warning appended — no statistical analysis runs and the
overfitting score stays at its initialized `0.0` rather than being
computed. -/
theorem c9_insufficient_strategies
    (strategyData : List (String × Option (List ℚ)))
    (currentAllocations : List (String × ℚ)) (sub : OverfitSubScores)
    (h : strategyData.length < 2) :
    analyzeFormulaOverfitting strategyData currentAllocations sub =
      { overfitting_score := 0, risk_level := "FAIBLE",
        warnings := [insufficientStrategiesMsg], analyzed := false } := by
  simp [analyzeFormulaOverfitting, h]

/-- Witness for claim C9 at a single-strategy input. -/
theorem c9_insufficient_strategies_witness :
    analyzeFormulaOverfitting [("a", some [0.01])] [("a", 10)]
      ⟨50, 50, 50, 50, 0⟩ =
    { overfitting_score := 0, risk_level := "FAIBLE",
      warnings := [insufficientStrategiesMsg], analyzed := false } :=
  c9_insufficient_strategies [("a", some [0.01])] [("a", 10)]
    ⟨50, 50, 50, 50, 0⟩ (by simp)

/-- The inverse volatility the risk-parity method stores for a strategy (0
as a placeholder for strategies without data, which are never included). -/
def invStdOf (sqrtF : ℚ → ℚ) (s : StrategyModel) : ℚ :=
  match s.returns with
  | some rs => 1 / npStd sqrtF rs
  | none => 0

/-- The strategies claim C10 says risk parity includes: return series
present, non-empty, and of strictly positive standard deviation — stated
via the variance, since the standard deviation `sqrtF (popVariance rs)` is
positive exactly when the variance is (hypothesis `hF` below). -/
def riskParityQualifying (strategies : List (String × StrategyModel)) :
    List (String × StrategyModel) :=
  strategies.filter (fun p =>
    match p.2.returns with
    | some rs => decide (0 < rs.length) && decide (0 < popVariance rs)
    | none => false)

/-- The population variance is non-negative. -/
theorem popVariance_nonneg (l : List ℚ) : 0 ≤ popVariance l := by
  unfold popVariance
  apply div_nonneg
  · apply List.sum_nonneg
    intro x hx
    simp only [List.mem_map] at hx
    obtain ⟨r, _, rfl⟩ := hx
    positivity
  · exact Nat.cast_nonneg _

/-- The weights collected by the risk-parity loop are exactly the inverse
volatilities of the qualifying strategies, in order. -/
theorem riskParity_collect (sqrtF : ℚ → ℚ)
    (hF : ∀ q, 0 ≤ q → (0 < sqrtF q ↔ 0 < q))
    (strategies : List (String × StrategyModel)) :
    (strategies.filterMap (fun p =>
      match p.2.returns with
      | some rs =>
        if 0 < rs.length then
          if 0 < npStd sqrtF rs then some (p.1, 1 / npStd sqrtF rs) else none
        else none
      | none => none)) =
    (riskParityQualifying strategies).map
      (fun p => (p.1, invStdOf sqrtF p.2)) := by
  induction strategies with
  | nil => rfl
  | cons p l ih =>
    simp only [riskParityQualifying, List.filterMap_cons, List.filter_cons] at ih ⊢
    simp only [one_div] at ih ⊢
    cases hr : p.2.returns with
    | none => simp [hr, ih]
    | some rs =>
      by_cases hlen : 0 < rs.length
      · by_cases hvol : 0 < npStd sqrtF rs
        · have hvar : 0 < popVariance rs :=
            (hF _ (popVariance_nonneg rs)).mp hvol
          simp [hr, hlen, hvol, hvar, ih, invStdOf]
        · have hvar : ¬0 < popVariance rs := fun hv =>
            hvol ((hF _ (popVariance_nonneg rs)).mpr hv)
          simp [hr, hlen, hvol, hvar, ih]
      · simp [hr, hlen, ih]

/-- Every qualifying strategy has a strictly positive inverse volatility. -/
theorem qualifying_invStd_pos (sqrtF : ℚ → ℚ)
    (hF : ∀ q, 0 ≤ q → (0 < sqrtF q ↔ 0 < q))
    (strategies : List (String × StrategyModel)) :
    ∀ p ∈ riskParityQualifying strategies, 0 < invStdOf sqrtF p.2 := by
  intro p hp
  simp only [riskParityQualifying, List.mem_filter] at hp
  obtain ⟨_hmem, hpred⟩ := hp
  cases hr : p.2.returns with
  | none => simp [hr] at hpred
  | some rs =>
    simp only [hr, Bool.and_eq_true, decide_eq_true_eq] at hpred
    simp only [invStdOf, hr]
    exact one_div_pos.mpr ((hF _ (popVariance_nonneg rs)).mpr hpred.2)

/-- Claim C10: the risk-parity output contains exactly the strategies whose
return series is present, non-empty and of strictly positive standard
deviation (the others are omitted entirely, not given weight 0), and when
at least one strategy qualifies, each included weight is the strategy's
inverse standard deviation divided by the total inverse standard
deviation, so the weights sum to 1. -/
theorem c10_risk_parity (sqrtF : ℚ → ℚ)
    (strategies : List (String × StrategyModel))
    (hF : ∀ q, 0 ≤ q → (0 < sqrtF q ↔ 0 < q)) :
    ((riskParityAllocation sqrtF strategies).map (fun p => p.1) =
      (riskParityQualifying strategies).map (fun p => p.1)) ∧
    (riskParityQualifying strategies = [] →
      riskParityAllocation sqrtF strategies = []) ∧
    (riskParityQualifying strategies ≠ [] →
      riskParityAllocation sqrtF strategies =
        (riskParityQualifying strategies).map
          (fun p => (p.1, invStdOf sqrtF p.2 /
            sumAllocations ((riskParityQualifying strategies).map
              (fun q => (q.1, invStdOf sqrtF q.2))))) ∧
      sumAllocations (riskParityAllocation sqrtF strategies) = 1) := by
  have hcol := riskParity_collect sqrtF hF strategies
  by_cases hq : riskParityQualifying strategies = []
  · have hz : riskParityAllocation sqrtF strategies = [] := by
      simp only [riskParityAllocation]
      rw [hcol, hq]
      simp [sumAllocations]
    exact ⟨by simp [hz, hq], fun _ => hz, fun hne => absurd hq hne⟩
  · have htot : 0 < sumAllocations ((riskParityQualifying strategies).map
        (fun p => (p.1, invStdOf sqrtF p.2))) := by
      unfold sumAllocations
      apply List.sum_pos
      · intro x hx
        rw [List.map_map, List.mem_map] at hx
        obtain ⟨p, hp, rfl⟩ := hx
        exact qualifying_invStd_pos sqrtF hF strategies p hp
      · simp [hq]
    have halloc : riskParityAllocation sqrtF strategies =
        ((riskParityQualifying strategies).map
          (fun p => (p.1, invStdOf sqrtF p.2))).map
            (fun p => (p.1, p.2 / sumAllocations
              ((riskParityQualifying strategies).map
                (fun p => (p.1, invStdOf sqrtF p.2))))) := by
      simp only [riskParityAllocation]
      rw [hcol, if_pos htot]
    refine ⟨?_, fun h0 => absurd h0 hq, fun _ => ⟨?_, ?_⟩⟩
    · rw [halloc, List.map_map, List.map_map]
      rfl
    · rw [halloc, List.map_map]
      rfl
    · rw [halloc, sumAllocations_div, div_self (ne_of_gt htot)]

/-- Three strategies for the risk-parity witness: one with positive
volatility, one with a constant (zero-volatility) series, one without
data. -/
def c10Strategies : List (String × StrategyModel) :=
  [("a", ⟨some [0.1, 0.3], none⟩),
   ("b", ⟨some [0.2, 0.2], none⟩),
   ("c", ⟨none, none⟩)]

/-- Witness for claim C10 with the identity square-root stand-in (which
preserves positivity as `hF` demands) on the concrete strategies. -/
theorem c10_risk_parity_witness :
    ((riskParityAllocation (fun q => q) c10Strategies).map (fun p => p.1) =
      (riskParityQualifying c10Strategies).map (fun p => p.1)) ∧
    sumAllocations (riskParityAllocation (fun q => q) c10Strategies) = 1 := by
  have h := c10_risk_parity (fun q => q) c10Strategies (fun _ _ => Iff.rfl)
  have hne : riskParityQualifying c10Strategies ≠ [] := by
    simp only [riskParityQualifying, c10Strategies, List.filter_cons]
    norm_num [popVariance, listMean, npStd]
  exact ⟨h.1, (h.2.2 hne).2⟩
